import Mathlib

/-!
Verification of the multi-server session orchestrator and tool-call dispatch
loop of the mcp-via-litellm repository, against its natural-language
specification.

The embedding follows the source files:
* src/mcpcli/chat_api.py     (conversation loop, session startup/shutdown)
* src/mcpcli/api_server.py   (HTTP lifespan shutdown path)
* src/mcpcli/chat_client.py  (CLI client main loop)

The modules mcpcli.tools_handler (tool fetch/dispatch), mcpcli.transport and
mcpcli.messages are not part of the three source files; the definitions that
stand for them are modelled from the specification and are marked as such in
their doc comments.  Machine-level concerns (async scheduling, OS pipes) are
abstracted: the loop is single-threaded and sequential in the source, so it
embeds as a pure function; the completion client and per-connection invoke
behaviour are parameters.
-/

namespace McpViaLitellm

/-- One chat message, as the plain dicts built in chat_api.py:
role, content, and the tool_call_id carried by tool-result messages. -/
structure Message where
  role : String
  content : String
  tool_call_id : Option String
deriving DecidableEq, Repr

/-- A tool call emitted by the completion service
(id, function name, raw argument string), the shape consumed at
chat_api.py lines 90-117. -/
structure ToolCall where
  id : String
  name : String
  args : String
deriving DecidableEq, Repr

/-- One completion-service reply, the dict read at chat_api.py lines 86-87:
completion.get "response" (absent key gives the default) and
completion.get "tool_calls" (absent key gives the empty list). -/
structure Completion where
  response : Option String
  tool_calls : List ToolCall
deriving DecidableEq, Repr

/-- Modelled from the spec: ToolResult
tool_call_id, content, error flag, produced by the Tool Dispatcher of
mcpcli.tools_handler, which is not among the source files. -/
structure ToolResult where
  tool_call_id : String
  content : String
  error : Bool
deriving DecidableEq, Repr

/-- A tool registry: tool name to owning-connection index.
Connections are identified by their position in the server spec list. -/
abbrev Registry := List (String × Nat)

/-- Association-list lookup for the registry. -/
def lookupReg : Registry → String → Option Nat
  | [], _ => none
  | p :: rest, n => if p.1 = n then some p.2 else lookupReg rest n

/-- Modelled from the spec: registry insertion where a tool name already
present is remapped to the newly advertising connection
(the later connection in list order wins). -/
def insertLastWins : Registry → String → Nat → Registry
  | [], n, c => [(n, c)]
  | p :: rest, n, c => if p.1 = n then (n, c) :: rest else p :: insertLastWins rest n c

/-- Modelled from the spec: the Tool Registry is built by querying each
connection's advertised tool names in spec-list order and inserting each
name with the last-writer-wins policy.  The input pairs each connection
index with the tool names it advertises. -/
def buildRegistry (adv : List (Nat × List String)) : Registry :=
  adv.foldl (fun reg p => p.2.foldl (fun r n => insertLastWins r n p.1) reg) []

/-- The connection of the spec listed last among those advertising a name:
scanning the advertisement list left to right, a later advertiser of the
name overrides an earlier one. -/
def lastAdvertiser (adv : List (Nat × List String)) (n : String) : Option Nat :=
  adv.foldl (fun acc p => if n ∈ p.2 then some p.1 else acc) none

/-- All advertised tool names, in advertisement order with duplicates. -/
def advertisedNames (adv : List (Nat × List String)) : List String :=
  adv.flatMap Prod.snd

/-- Normalising an invoke outcome into a ToolResult: a provider error
becomes an error-flagged result rather than an exception. -/
def resultOfInvoke (tcid : String) (r : Except String String) : ToolResult :=
  match r with
  | .ok content => ⟨tcid, content, false⟩
  | .error e => ⟨tcid, e, true⟩

/-- Modelled from the spec: Tool Dispatcher dispatch of mcpcli.tools_handler.
Looks the call's name up in the registry; if absent, returns a ToolResult
with error flag set and a descriptive content string; if present, invokes
the owning connection and normalises the outcome.  Total: no failure of a
single dispatch escapes as an exception. -/
def dispatch (invoke : Nat → String → String → Except String String)
    (reg : Registry) (tc : ToolCall) : ToolResult :=
  match lookupReg reg tc.name with
  | none => ⟨tc.id, "Tool not found: " ++ tc.name, true⟩
  | some c => resultOfInvoke tc.id (invoke c tc.name tc.args)

/-- Modelled from the spec: the tool Message appended for one ToolResult
(content with the error flag preserved in the content framing,
tool_call_id set to the call's id). -/
def toolMessage (r : ToolResult) : Message :=
  ⟨"tool", if r.error then "Error: " ++ r.content else r.content, some r.tool_call_id⟩

/-- The assistant message appended at chat_api.py line 123:
content is completion.get "response" with default "No response". -/
def assistantMessage (c : Completion) : Message :=
  ⟨"assistant", c.response.getD "No response", none⟩

/-- The batch of tool-result messages one completion round appends:
one tool message per emitted call, in the order the model emitted them. -/
def roundMessages (invoke : Nat → String → String → Except String String)
    (reg : Registry) (comp : Completion) : List Message :=
  comp.tool_calls.map (fun tc => toolMessage (dispatch invoke reg tc))

/-- A completion client: given the index of the completion call within the
run and the conversation sent, returns a completion or fails
(a raised provider/network error). -/
abbrev Client := Nat → List Message → Except String Completion

/-- How one run of the conversation loop ended. -/
inductive Outcome where
  | done
  | completionFailed
  | outOfFuel
deriving DecidableEq, Repr

/-- Observable result of the conversation loop: the final state of the
conversation list, the conversations passed to each completion call in
order, and how the loop ended. -/
structure LoopResult where
  conv : List Message
  calls : List (List Message)
  outcome : Outcome
deriving DecidableEq, Repr

/-- The conversation loop of chat_api.py lines 76-124 (process_conversation).
Each iteration calls the completion client on the current conversation; a
raised client error propagates out (completionFailed); a reply whose
tool_calls list is non-empty has each call dispatched in emitted order with
its tool message appended, then the loop continues; a reply with no tool
calls appends one assistant message and stops.  The source loop is
"while True"; the fuel argument only truncates the embedding of an
infinite run (outOfFuel). -/
def processConversation (client : Client)
    (invoke : Nat → String → String → Except String String) (reg : Registry) :
    Nat → Nat → List Message → LoopResult
  | 0, _, conv => ⟨conv, [], .outOfFuel⟩
  | fuel + 1, round, conv =>
    match client round conv with
    | .error _ => ⟨conv, [conv], .completionFailed⟩
    | .ok comp =>
      if comp.tool_calls.isEmpty then
        ⟨conv ++ [assistantMessage comp], [conv], .done⟩
      else
        let r := processConversation client invoke reg fuel (round + 1)
          (conv ++ roundMessages invoke reg comp)
        ⟨r.conv, conv :: r.calls, r.outcome⟩

/-- The two process-wide lists of chat_api.py lines 13-14: the streams and
context managers of the connections opened so far.  Connections are
identified here by their server name. -/
structure SessionState where
  server_streams : List String
  context_managers : List String
deriving DecidableEq, Repr

/-- Session startup, chat_api.py lines 16-30 (the initialize coroutine).
For each server name in order: open the connection (append its streams and
context manager to the globals), then attempt the handshake; a falsy
handshake result prints an error and returns immediately — nothing is
closed, nothing is raised, and the remaining servers are not attempted.
The handshake parameter stands for send_initialize
(mcpcli.messages, not among the source files); only its truthiness is
consumed here, exactly as in the source. -/
def initServers (handshake : String → Bool) : List String → SessionState → SessionState
  | [], st => st
  | n :: rest, st =>
    let opened : SessionState :=
      ⟨st.server_streams ++ [n], st.context_managers ++ [n]⟩
    if handshake n then initServers handshake rest opened else opened

/-- Shutdown path of chat_api.py lines 33-36 (close_streams): each context
manager's exit is called in order with no surrounding error handling.
The close parameter returns some error message on failure, none on
success.  Result: the managers whose close was attempted, and the first
failure, which propagates out of the loop so later managers are never
attempted. -/
def closeStreams (close : String → Option String) : List String → List String × Option String
  | [] => ([], none)
  | cm :: rest =>
    match close cm with
    | some e => ([cm], some e)
    | none =>
      let r := closeStreams close rest
      (cm :: r.1, r.2)

/-- Shutdown path of api_server.py lines 36-42 (the finally block of
lifespan): each context manager's exit is attempted inside its own
try/except that swallows every failure.  Result: every manager paired
with its close outcome; the function is total, so shutdown itself never
fails. -/
def lifespanShutdown (close : String → Option String) : List String → List (String × Option String)
  | [] => []
  | cm :: rest => (cm, close cm) :: lifespanShutdown close rest

/-- Modelled from the spec: the system prompt generated from the current
tool registry's descriptors (SystemPromptGenerator of
mcpcli.system_prompt_generator, not among the source files).  Only the
fact that it is a function of the advertised tools matters to the claims. -/
def generateSystemPrompt (toolNames : List String) : String :=
  "In this environment you have access to the following tools: "
    ++ String.intercalate ", " toolNames

/-- The system message prepended at chat_api.py line 63. -/
def systemPromptMessage (toolNames : List String) : Message :=
  ⟨"system", generateSystemPrompt toolNames, none⟩

/-- The conversation handed to the loop, chat_api.py lines 62-64:
when the caller supplies no messages, the conversation is just the system
message; when messages are supplied and add_system_prompt is requested,
the system message is prepended; otherwise the supplied messages pass
through unmodified. -/
def effectiveMessages (toolNames : List String) (messages : Option (List Message))
    (addSystemPrompt : Bool) : List Message :=
  match messages with
  | none => [systemPromptMessage toolNames]
  | some m => if addSystemPrompt then systemPromptMessage toolNames :: m else m

/-- What a chat_completion call delivers to its caller.  ok carries the
returned history and the final state of the (caller-aliased) messages
list; raised would be an exception propagating to the caller; errNone is
the source's except branch (chat_api.py lines 70-71), which prints the
error and returns None while the messages list keeps its mutations;
hung marks a run whose loop exceeded the embedding's fuel. -/
inductive RunResult where
  | ok (ret : List Message) (state : List Message)
  | raised (e : String)
  | errNone (state : List Message)
  | hung
deriving DecidableEq, Repr

/-- Discriminator: did the call surface an exception to the caller. -/
def isRaisedResult : RunResult → Bool
  | .raised _ => true
  | _ => false

/-- chat_api.py lines 38-71 (chat_completion): gather the advertised tools
from all connections, optionally prepend the system message, run the
conversation loop, and return the messages on success.  Every exception —
including a completion-client failure propagating out of
process_conversation — is caught by the try/except, printed, and turned
into a None return. -/
def chatCompletion (client : Client)
    (invoke : Nat → String → String → Except String String)
    (adv : List (Nat × List String)) (messages : Option (List Message))
    (addSystemPrompt : Bool) (fuel : Nat) : RunResult :=
  let msgs := effectiveMessages (advertisedNames adv) messages addSystemPrompt
  let r := processConversation client invoke (buildRegistry adv) fuel 0 msgs
  match r.outcome with
  | .done => .ok r.conv r.conv
  | .completionFailed => .errNone r.conv
  | .outOfFuel => .hung

/-- The conversations passed to each completion call by the same
chat_completion pipeline, in call order. -/
def chatCompletionTrace (client : Client)
    (invoke : Nat → String → String → Except String String)
    (adv : List (Nat × List String)) (messages : Option (List Message))
    (addSystemPrompt : Bool) (fuel : Nat) : List (List Message) :=
  (processConversation client invoke (buildRegistry adv) fuel 0
    (effectiveMessages (advertisedNames adv) messages addSystemPrompt)).calls

/-- The user message appended by the CLI client, chat_client.py line 68. -/
def userMessage (s : String) : Message :=
  ⟨"user", s, none⟩

/-- Result of one turn of the CLI client main loop: the new conversation
history plus the request actually sent (payload and add_system_prompt
flag). -/
structure TurnResult where
  history : List Message
  payload : List Message
  addSys : Bool
deriving DecidableEq, Repr

/-- One iteration of the CLI client main loop, chat_client.py lines 67-93:
append the user message; set add_system_prompt exactly when this is the
first message; send either the full history (first turn) or only the last
message; on a truthy reply, either adopt it wholesale (first turn) or
extend the history with its tail; on None or an empty reply, pop the user
message just appended.  The send parameter stands for send_chat_request,
whose None return models its error path. -/
def clientTurn (send : List Message → Bool → Option (List Message))
    (history : List Message) (userMsg : String) : TurnResult :=
  let h1 := history ++ [userMessage userMsg]
  let addSys : Bool := h1.length == 1
  let payload := if addSys then h1 else h1.drop (h1.length - 1)
  let hist :=
    match send payload addSys with
    | some updated =>
      if updated.isEmpty then h1.dropLast
      else if addSys then updated
      else h1 ++ updated.drop h1.length
    | none => h1.dropLast
  ⟨hist, payload, addSys⟩

/-- One conversation list extends another by appending at the end. -/
def isExtension (base c : List Message) : Prop := ∃ t, c = base ++ t

/-- The tool names registered, in registry order. -/
def regKeys (reg : Registry) : List String := reg.map Prod.fst

/-- Mock completion client for concrete runs: one round with a single
read_file call, then a final reply with no tool calls. -/
def c1WitClient : Client := fun i _ =>
  if i == 0 then .ok ⟨some "thinking", [⟨"call1", "read_file", "intro.md"⟩]⟩
  else .ok ⟨some "The file contains Hello", []⟩

/-- Mock connection invoke behaviour answering every call with "Hello". -/
def c1WitInvoke : Nat → String → String → Except String String := fun _ _ _ => .ok "Hello"

/-- Mock completion client that fails every call, standing for a
network/provider error raised by the completion service. -/
def c4FailClient : Client := fun _ _ => .error "network unreachable"

/-- Mock completion client that emits one tool call on every round. -/
def c6LoopClient : Client := fun _ _ => .ok ⟨none, [⟨"c", "t", ""⟩]⟩

-- Helper lemmas ---------------------------------------------------------

theorem isExtension_refl (l : List Message) : isExtension l l := ⟨[], by simp⟩

theorem isExtension_append (l t : List Message) : isExtension l (l ++ t) := ⟨t, rfl⟩

theorem isExtension_trans {a b c : List Message} (h1 : isExtension a b)
    (h2 : isExtension b c) : isExtension a c := by
  obtain ⟨t1, rfl⟩ := h1
  obtain ⟨t2, rfl⟩ := h2
  exact ⟨t1 ++ t2, by simp⟩

/-- The conversation loop only ever appends: the final conversation and the
conversation of every completion call extend the starting conversation,
and the per-call conversations grow monotonically. -/
theorem processConversation_extends (client : Client)
    (invoke : Nat → String → String → Except String String) (reg : Registry) :
    ∀ (fuel round : Nat) (conv : List Message),
      isExtension conv (processConversation client invoke reg fuel round conv).conv ∧
      (∀ c ∈ (processConversation client invoke reg fuel round conv).calls, isExtension conv c) ∧
      (processConversation client invoke reg fuel round conv).calls.Pairwise isExtension := by
  intro fuel
  induction fuel with
  | zero =>
    intro round conv
    exact ⟨isExtension_refl conv, by simp [processConversation], by simp [processConversation]⟩
  | succ n ih =>
    intro round conv
    cases hc : client round conv with
    | error e =>
      refine ⟨?_, ?_, ?_⟩ <;> simp [processConversation, hc]
      · exact isExtension_refl conv
      · exact isExtension_refl conv
    | ok comp =>
      by_cases he : comp.tool_calls.isEmpty
      · refine ⟨?_, ?_, ?_⟩ <;> simp [processConversation, hc, he]
        · exact isExtension_append conv _
        · exact isExtension_refl conv
      · have hext := isExtension_append conv (roundMessages invoke reg comp)
        obtain ⟨e1, e2, e3⟩ := ih (round + 1) (conv ++ roundMessages invoke reg comp)
        refine ⟨?_, ?_, ?_⟩ <;> simp [processConversation, hc, he]
        · exact isExtension_trans hext e1
        · exact ⟨isExtension_refl conv, fun c hcm => isExtension_trans hext (e2 c hcm)⟩
        · exact ⟨fun c hcm => isExtension_trans hext (e2 c hcm), e3⟩

/-- Whenever the loop has fuel for at least one iteration, the first
completion call receives exactly the starting conversation. -/
theorem processConversation_calls_head (client : Client)
    (invoke : Nat → String → String → Except String String) (reg : Registry)
    (fuel round : Nat) (conv : List Message) :
    (processConversation client invoke reg (fuel + 1) round conv).calls.head? = some conv := by
  cases hc : client round conv with
  | error e => simp [processConversation, hc]
  | ok comp =>
    by_cases he : comp.tool_calls.isEmpty <;> simp [processConversation, hc, he]

-- Claim theorems --------------------------------------------------------

/-- C6: the baseline conversation loop has no built-in iteration bound —
for every completion client that answers every round with at least one
tool call, the loop never terminates: however much fuel the embedding
grants, the run ends by exhausting it, never by completing. -/
theorem conversationLoop_unbounded (client : Client)
    (invoke : Nat → String → String → Except String String) (reg : Registry)
    (h : ∀ i cv, ∃ comp, client i cv = .ok comp ∧ comp.tool_calls ≠ []) :
    ∀ (fuel round : Nat) (conv : List Message),
      (processConversation client invoke reg fuel round conv).outcome = .outOfFuel := by
  intro fuel
  induction fuel with
  | zero => intro round conv; rfl
  | succ n ih =>
    intro round conv
    obtain ⟨comp, hc, hne⟩ := h round conv
    have he : comp.tool_calls.isEmpty = false := by
      cases hcalls : comp.tool_calls with
      | nil => exact absurd hcalls hne
      | cons a t => rfl
    simp [processConversation, hc, he]
    exact ih (round + 1) (conv ++ roundMessages invoke reg comp)

theorem conversationLoop_unbounded_witness :
    (processConversation c6LoopClient c1WitInvoke [] 5 0 []).outcome = Outcome.outOfFuel := by
  have h := conversationLoop_unbounded c6LoopClient c1WitInvoke []
    (fun i cv => ⟨⟨none, [⟨"c", "t", ""⟩]⟩, rfl, by decide⟩)
  exact h 5 0 []

/-- C9: the conversation is append-only during a loop run — the final
conversation extends the starting one, every conversation passed to a
completion call extends the starting one, and the conversations of
successive completion calls extend one another, so every message present
at the start stays present, unchanged and in order, throughout the run. -/
theorem conversation_appendOnly (client : Client)
    (invoke : Nat → String → String → Except String String) (reg : Registry)
    (fuel round : Nat) (conv : List Message) :
    isExtension conv (processConversation client invoke reg fuel round conv).conv ∧
    (∀ c ∈ (processConversation client invoke reg fuel round conv).calls, isExtension conv c) ∧
    (processConversation client invoke reg fuel round conv).calls.Pairwise isExtension :=
  processConversation_extends client invoke reg fuel round conv

theorem conversation_appendOnly_witness :
    isExtension [userMessage "w"]
      (processConversation c1WitClient c1WitInvoke [("read_file", 0)] 2 0
        [userMessage "w"]).conv ∧
    isExtension [userMessage "w"] [userMessage "w"] := by
  have h := conversation_appendOnly c1WitClient c1WitInvoke [("read_file", 0)] 2 0
    [userMessage "w"]
  exact ⟨h.1, h.2.1 [userMessage "w"] (by decide)⟩

/-- C10: in the CLI client main loop, a turn whose server request yields
no updated history (a None reply, or an empty one) pops the user message
it appended, restoring the conversation history to its value before the
turn began. -/
theorem clientTurn_restoresHistory (send : List Message → Bool → Option (List Message))
    (history : List Message) (u : String)
    (h : send (clientTurn send history u).payload (clientTurn send history u).addSys = none ∨
      send (clientTurn send history u).payload (clientTurn send history u).addSys = some []) :
    (clientTurn send history u).history = history := by
  simp only [clientTurn] at h ⊢
  rcases h with h | h <;> simp at h <;> simp [h]

theorem clientTurn_restoresHistory_witness :
    (clientTurn (fun _ _ => none) [userMessage "earlier"] "next").history =
      [userMessage "earlier"] :=
  clientTurn_restoresHistory (fun _ _ => none) [userMessage "earlier"] "next" (Or.inl rfl)

/-- C2, code-bug evidence: with servers a then b where the handshake of a
fails, startup opens a's connection, appends it to the global lists,
prints and returns normally — no SessionStartError is raised, no close
call is made (the embedding performs none and the function returns the
state with a's connection still open), and server b is never launched.
The claim's all-or-nothing rollback does not happen. -/
theorem initServers_leaksOnFailure :
    initServers (fun n => n != "a") ["a", "b"] ⟨[], []⟩ =
      ⟨["a"], ["a"]⟩ := by decide

/-- C7 counterexample: on the chat_api close_streams path, a close failure
of the first connection propagates out of the shutdown call — the second
connection's close is never attempted — refuting, for this path, that
shutdown never itself fails and still closes the remaining connections. -/
theorem closeStreams_failure_counterexample :
    closeStreams (fun cm => if cm = "a" then some "close failed" else none) ["a", "b"] =
      (["a"], some "close failed") := by decide

/-- C7 amended: the api_server lifespan shutdown attempts to close every
owned connection and swallows individual close failures, returning
normally in every case; the chat_api close_streams path, by contrast, has
no error handling — it completes (attempting every close) exactly when no
individual close fails. -/
theorem shutdown_amended (close : String → Option String) (cms : List String) :
    (lifespanShutdown close cms).map Prod.fst = cms ∧
    ((closeStreams close cms).2 = none ↔ ∀ cm ∈ cms, close cm = none) ∧
    ((∀ cm ∈ cms, close cm = none) → (closeStreams close cms).1 = cms) := by
  refine ⟨?_, ?_, ?_⟩
  · induction cms with
    | nil => rfl
    | cons cm rest ih => simp [lifespanShutdown, ih]
  · induction cms with
    | nil => simp [closeStreams]
    | cons cm rest ih =>
      cases hc : close cm with
      | some e => simp [closeStreams, hc]
      | none => simp [closeStreams, hc, ih]
  · induction cms with
    | nil => intro _; rfl
    | cons cm rest ih =>
      intro hall
      have hc : close cm = none := hall cm (by simp)
      simp [closeStreams, hc]
      exact ih (fun x hx => hall x (by simp [hx]))

theorem shutdown_amended_witness :
    (lifespanShutdown (fun _ => none) ["a", "b"]).map Prod.fst = ["a", "b"] ∧
    (closeStreams (fun _ => none) ["a", "b"]).1 = ["a", "b"] :=
  ⟨(shutdown_amended (fun _ => none) ["a", "b"]).1,
   (shutdown_amended (fun _ => none) ["a", "b"]).2.2 (fun _ _ => rfl)⟩

/-- Exact characterisation of a scripted run: when the client answers the
first rounds with the completions of body (each carrying tool calls) and
then with last (carrying none), the loop terminates with done, sends one
completion call per script entry, and the final conversation is the start
followed by each round's tool-result batch in round order and one final
assistant message. -/
theorem processConversation_script
    (invoke : Nat → String → String → Except String String) (reg : Registry) :
    ∀ (body : List Completion) (last : Completion) (client : Client)
      (round fuel : Nat) (conv : List Message),
      (∀ i c, (body ++ [last])[i]? = some c → ∀ cv, client (round + i) cv = .ok c) →
      (∀ c ∈ body, c.tool_calls ≠ []) →
      last.tool_calls = [] →
      body.length + 1 ≤ fuel →
      processConversation client invoke reg fuel round conv =
        ⟨conv ++ body.flatMap (roundMessages invoke reg) ++ [assistantMessage last],
         (body.map (roundMessages invoke reg)).scanl (· ++ ·) conv,
         .done⟩ := by
  intro body
  induction body with
  | nil =>
    intro last client round fuel conv hclient _ hlast hfuel
    obtain ⟨f, rfl⟩ : ∃ f, fuel = f + 1 := by
      cases fuel with
      | zero => omega
      | succ f => exact ⟨f, rfl⟩
    have hc : client round conv = .ok last := by
      have := hclient 0 last (by simp) conv
      simpa using this
    have he : last.tool_calls.isEmpty = true := by simp [hlast]
    simp [processConversation, hc, he]
  | cons c body ih =>
    intro last client round fuel conv hclient hbody hlast hfuel
    obtain ⟨f, rfl⟩ : ∃ f, fuel = f + 1 := by
      cases fuel with
      | zero => omega
      | succ f => exact ⟨f, rfl⟩
    have hc : client round conv = .ok c := by
      have := hclient 0 c (by simp) conv
      simpa using this
    have hne : c.tool_calls.isEmpty = false := by
      cases hcalls : c.tool_calls with
      | nil => exact absurd hcalls (hbody c (by simp))
      | cons a t => rfl
    have hclient2 : ∀ i c2, (body ++ [last])[i]? = some c2 →
        ∀ cv, client (round + 1 + i) cv = .ok c2 := by
      intro i c2 hi cv
      have hi2 : ((c :: body) ++ [last])[i + 1]? = some c2 := by simpa using hi
      have := hclient (i + 1) c2 hi2 cv
      have harith : round + (i + 1) = round + 1 + i := by omega
      rwa [harith] at this
    have hrec := ih last client (round + 1) f
      (conv ++ roundMessages invoke reg c) hclient2
      (fun c2 hm => hbody c2 (by simp [hm])) hlast (by simp at hfuel; omega)
    simp [processConversation, hc, hne, hrec, List.append_assoc]

/-- C1: for a completion service scripted as M tool-call rounds (body)
followed by one zero-tool-call reply (last), the conversation loop makes
exactly M + 1 completion calls, terminates with done, appends each round's
tool results in the order the model emitted the calls (round by round),
and appends exactly one assistant message carrying the final response
text; M = 0 is the body = empty-list instance. -/
theorem conversationLoop_rounds (body : List Completion) (last : Completion)
    (client : Client) (invoke : Nat → String → String → Except String String)
    (reg : Registry) (conv : List Message) (fuel : Nat)
    (hclient : ∀ i c, (body ++ [last])[i]? = some c → ∀ cv, client i cv = .ok c)
    (hbody : ∀ c ∈ body, c.tool_calls ≠ [])
    (hlast : last.tool_calls = [])
    (hfuel : body.length + 1 ≤ fuel) :
    (processConversation client invoke reg fuel 0 conv).outcome = .done ∧
    (processConversation client invoke reg fuel 0 conv).calls.length = body.length + 1 ∧
    (processConversation client invoke reg fuel 0 conv).conv =
      conv ++ body.flatMap (roundMessages invoke reg) ++ [assistantMessage last] := by
  have h := processConversation_script invoke reg body last client 0 fuel conv
    (by intro i c hi cv; simpa using hclient i c hi cv) hbody hlast hfuel
  rw [h]
  refine ⟨rfl, ?_, rfl⟩
  simp [List.length_scanl]

theorem conversationLoop_rounds_witness :
    (processConversation c1WitClient c1WitInvoke [("read_file", 0)] 2 0
      [userMessage "read intro.md"]).outcome = Outcome.done ∧
    (processConversation c1WitClient c1WitInvoke [("read_file", 0)] 2 0
      [userMessage "read intro.md"]).calls.length = 2 ∧
    (processConversation c1WitClient c1WitInvoke [("read_file", 0)] 2 0
      [userMessage "read intro.md"]).conv =
      [userMessage "read intro.md",
       ⟨"tool", "Hello", some "call1"⟩,
       ⟨"assistant", "The file contains Hello", none⟩] := by
  have h := conversationLoop_rounds
    [⟨some "thinking", [⟨"call1", "read_file", "intro.md"⟩]⟩]
    ⟨some "The file contains Hello", []⟩
    c1WitClient c1WitInvoke [("read_file", 0)] [userMessage "read intro.md"] 2
    (by
      intro i c hi cv
      match i with
      | 0 => simp at hi; rw [← hi]; rfl
      | 1 => simp at hi; rw [← hi]; rfl
      | (n + 2) => simp at hi)
    (by decide) rfl (by decide)
  refine ⟨h.1, by simpa using h.2.1, ?_⟩
  rw [h.2.2]
  decide

theorem lookupReg_insertLastWins (reg : Registry) (n : String) (c : Nat) (m : String) :
    lookupReg (insertLastWins reg n c) m = if m = n then some c else lookupReg reg m := by
  induction reg with
  | nil =>
    by_cases h : m = n
    · subst h; simp [insertLastWins, lookupReg]
    · have h2 : ¬ n = m := fun hh => h hh.symm
      simp [insertLastWins, lookupReg, h, h2]
  | cons p rest ih =>
    by_cases hp : p.1 = n
    · subst hp
      by_cases h : m = p.1
      · subst h; simp [insertLastWins, lookupReg]
      · have h2 : ¬ p.1 = m := fun hh => h hh.symm
        simp [insertLastWins, lookupReg, h, h2]
    · by_cases h : p.1 = m
      · subst h
        have hmn : ¬ p.1 = n := hp
        simp [insertLastWins, lookupReg, hp, hmn]
      · simp [insertLastWins, lookupReg, hp, h, ih]

theorem lookupReg_foldl_insert (c : Nat) (m : String) :
    ∀ (names : List String) (reg : Registry),
      lookupReg (names.foldl (fun r n => insertLastWins r n c) reg) m =
        if m ∈ names then some c else lookupReg reg m := by
  intro names
  induction names with
  | nil => intro reg; simp
  | cons n names ih =>
    intro reg
    rw [List.foldl_cons, ih, lookupReg_insertLastWins]
    by_cases h : m ∈ names
    · simp [h]
    · by_cases h2 : m = n <;> simp [h, h2]

theorem lookupReg_buildRegistry_aux (m : String) :
    ∀ (adv : List (Nat × List String)) (reg : Registry),
      lookupReg (adv.foldl (fun r p => p.2.foldl (fun r2 n => insertLastWins r2 n p.1) r) reg) m =
        adv.foldl (fun acc p => if m ∈ p.2 then some p.1 else acc) (lookupReg reg m) := by
  intro adv
  induction adv with
  | nil => intro reg; simp
  | cons p adv ih =>
    intro reg
    rw [List.foldl_cons, List.foldl_cons, ih, lookupReg_foldl_insert]

/-- The built registry maps every tool name to the connection of the spec
listed last among those advertising it. -/
theorem lookupReg_buildRegistry (adv : List (Nat × List String)) (m : String) :
    lookupReg (buildRegistry adv) m = lastAdvertiser adv m := by
  unfold buildRegistry lastAdvertiser
  rw [lookupReg_buildRegistry_aux]
  rfl

theorem regKeys_insertLastWins (reg : Registry) (n : String) (c : Nat) :
    regKeys (insertLastWins reg n c) =
      if n ∈ regKeys reg then regKeys reg else regKeys reg ++ [n] := by
  induction reg with
  | nil => simp [insertLastWins, regKeys]
  | cons p rest ih =>
    by_cases hp : p.1 = n
    · subst hp; simp [insertLastWins, regKeys]
    · have hne : ¬ n = p.1 := fun hh => hp hh.symm
      simp only [insertLastWins, if_neg hp, regKeys, List.map_cons] at ih ⊢
      rw [ih]
      by_cases h : n ∈ List.map Prod.fst rest
      · simp [h, hne]
      · simp [h, hne]

theorem mem_regKeys_insertLastWins (reg : Registry) (n : String) (c : Nat) (m : String) :
    m ∈ regKeys (insertLastWins reg n c) ↔ m = n ∨ m ∈ regKeys reg := by
  rw [regKeys_insertLastWins]
  by_cases h : n ∈ regKeys reg
  · simp only [if_pos h]
    constructor
    · exact Or.inr
    · rintro (rfl | hm)
      · exact h
      · exact hm
  · simp [h, or_comm]

theorem nodup_regKeys_insertLastWins (reg : Registry) (n : String) (c : Nat)
    (h : (regKeys reg).Nodup) : (regKeys (insertLastWins reg n c)).Nodup := by
  rw [regKeys_insertLastWins]
  by_cases hm : n ∈ regKeys reg
  · simpa [hm] using h
  · simp [hm, List.nodup_append, h]

theorem mem_regKeys_foldl_insert (c : Nat) :
    ∀ (names : List String) (reg : Registry) (m : String),
      m ∈ regKeys (names.foldl (fun r n => insertLastWins r n c) reg) ↔
        m ∈ names ∨ m ∈ regKeys reg := by
  intro names
  induction names with
  | nil => intro reg m; simp
  | cons n names ih =>
    intro reg m
    rw [List.foldl_cons, ih, mem_regKeys_insertLastWins]
    simp [or_comm, or_assoc]
    tauto

theorem nodup_regKeys_foldl_insert (c : Nat) :
    ∀ (names : List String) (reg : Registry),
      (regKeys reg).Nodup →
      (regKeys (names.foldl (fun r n => insertLastWins r n c) reg)).Nodup := by
  intro names
  induction names with
  | nil => intro reg h; exact h
  | cons n names ih =>
    intro reg h
    exact ih _ (nodup_regKeys_insertLastWins reg n c h)

theorem mem_regKeys_buildRegistry_aux :
    ∀ (adv : List (Nat × List String)) (reg : Registry) (m : String),
      m ∈ regKeys (adv.foldl (fun r p => p.2.foldl (fun r2 n => insertLastWins r2 n p.1) r) reg) ↔
        m ∈ advertisedNames adv ∨ m ∈ regKeys reg := by
  intro adv
  induction adv with
  | nil => intro reg m; simp [advertisedNames]
  | cons p adv ih =>
    intro reg m
    rw [List.foldl_cons, ih, mem_regKeys_foldl_insert]
    simp [advertisedNames, or_comm, or_assoc]
    tauto

theorem nodup_regKeys_buildRegistry (adv : List (Nat × List String)) :
    (regKeys (buildRegistry adv)).Nodup := by
  unfold buildRegistry
  have haux : ∀ (l : List (Nat × List String)) (reg : Registry),
      (regKeys reg).Nodup →
      (regKeys (l.foldl (fun r p => p.2.foldl (fun r2 n => insertLastWins r2 n p.1) r) reg)).Nodup := by
    intro l
    induction l with
    | nil => intro reg h; exact h
    | cons p l ihl =>
      intro reg h
      exact ihl _ (nodup_regKeys_foldl_insert p.1 p.2 reg h)
  exact haux adv [] (by simp [regKeys])

/-- The built registry has exactly one entry per distinct advertised tool
name. -/
theorem buildRegistry_length (adv : List (Nat × List String)) :
    (buildRegistry adv).length = (advertisedNames adv).toFinset.card := by
  have h1 : (buildRegistry adv).length = (regKeys (buildRegistry adv)).length := by
    simp [regKeys]
  rw [h1, ← List.toFinset_card_of_nodup (nodup_regKeys_buildRegistry adv)]
  congr 1
  ext m
  have hmem : m ∈ regKeys (buildRegistry adv) ↔ m ∈ advertisedNames adv := by
    have := mem_regKeys_buildRegistry_aux adv [] m
    simpa [buildRegistry, regKeys] using this
  simp [List.mem_toFinset, hmem]

/-- C3: when every connection handshakes successfully, the built tool
registry has exactly one entry per distinct advertised tool name
(duplicates collapse), every name is mapped to the connection of the spec
listed last among those advertising it, and dispatching a registered name
invokes exactly that connection. -/
theorem registry_sizeAndLastWins (adv : List (Nat × List String)) :
    (buildRegistry adv).length = (advertisedNames adv).toFinset.card ∧
    (∀ n, lookupReg (buildRegistry adv) n = lastAdvertiser adv n) ∧
    (∀ (invoke : Nat → String → String → Except String String) (tc : ToolCall) (c : Nat),
      lookupReg (buildRegistry adv) tc.name = some c →
      dispatch invoke (buildRegistry adv) tc = resultOfInvoke tc.id (invoke c tc.name tc.args)) := by
  refine ⟨buildRegistry_length adv, fun n => lookupReg_buildRegistry adv n, ?_⟩
  intro invoke tc c h
  simp [dispatch, h]

theorem registry_sizeAndLastWins_witness :
    (buildRegistry [(0, ["search"]), (1, ["search"])]).length =
      (advertisedNames [(0, ["search"]), (1, ["search"])]).toFinset.card ∧
    lookupReg (buildRegistry [(0, ["search"]), (1, ["search"])]) "search" = some 1 ∧
    dispatch (fun c _ _ => .ok (toString c)) (buildRegistry [(0, ["search"]), (1, ["search"])])
        ⟨"id1", "search", ""⟩ =
      resultOfInvoke "id1" (Except.ok "1") := by
  have h := registry_sizeAndLastWins [(0, ["search"]), (1, ["search"])]
  refine ⟨h.1, ?_, ?_⟩
  · exact (h.2.1 "search").trans (by decide)
  · have hl : lookupReg (buildRegistry [(0, ["search"]), (1, ["search"])])
        (ToolCall.name ⟨"id1", "search", ""⟩) = some 1 :=
      (h.2.1 "search").trans (by decide)
    exact (h.2.2 (fun c _ _ => .ok (toString c)) ⟨"id1", "search", ""⟩ 1 hl).trans (by decide)

/-- C4 counterexample: with a completion client that fails its very first
call, chat_completion does not surface a CompletionError to the caller —
the exception is caught by its try/except and the call returns None
(errNone), not a raised error. -/
theorem chatCompletion_noRaise_counterexample :
    chatCompletion c4FailClient c1WitInvoke [] (some [userMessage "hi"]) false 3 =
      RunResult.errNone [userMessage "hi"] ∧
    isRaisedResult (chatCompletion c4FailClient c1WitInvoke [] (some [userMessage "hi"]) false 3) =
      false := by
  constructor <;> rfl

/-- C4 amended: a completion-service failure is caught inside
chat_completion and surfaced to the caller as a None return value (not a
raised CompletionError); it aborts only the current call, and the
messages list — mutated in place — still holds the initial conversation
(every message appended before the failure extends it), so a subsequent
call can be made on intact state. -/
theorem chatCompletion_completionFailure (client : Client)
    (invoke : Nat → String → String → Except String String)
    (adv : List (Nat × List String)) (messages : Option (List Message))
    (flag : Bool) (fuel : Nat)
    (h : (processConversation client invoke (buildRegistry adv) fuel 0
        (effectiveMessages (advertisedNames adv) messages flag)).outcome = .completionFailed) :
    chatCompletion client invoke adv messages flag fuel =
      RunResult.errNone (processConversation client invoke (buildRegistry adv) fuel 0
        (effectiveMessages (advertisedNames adv) messages flag)).conv ∧
    isRaisedResult (chatCompletion client invoke adv messages flag fuel) = false ∧
    isExtension (effectiveMessages (advertisedNames adv) messages flag)
      (processConversation client invoke (buildRegistry adv) fuel 0
        (effectiveMessages (advertisedNames adv) messages flag)).conv := by
  refine ⟨?_, ?_, (processConversation_extends client invoke (buildRegistry adv) fuel 0
    (effectiveMessages (advertisedNames adv) messages flag)).1⟩
  · simp [chatCompletion, h]
  · simp [chatCompletion, h, isRaisedResult]

theorem chatCompletion_completionFailure_witness :
    chatCompletion c4FailClient c1WitInvoke [(0, ["read_file"])]
        (some [userMessage "retry me"]) false 5 =
      RunResult.errNone [userMessage "retry me"] ∧
    isRaisedResult (chatCompletion c4FailClient c1WitInvoke [(0, ["read_file"])]
        (some [userMessage "retry me"]) false 5) = false ∧
    isExtension [userMessage "retry me"] [userMessage "retry me"] := by
  have h := chatCompletion_completionFailure c4FailClient c1WitInvoke [(0, ["read_file"])]
    (some [userMessage "retry me"]) false 5 rfl
  exact h

/-- C5: dispatching a tool call whose name is absent from the registry
yields a ToolResult with the error flag set and a descriptive content
string — it is returned, not raised — and the conversation loop appends
the corresponding tool message and continues to its next completion call
(a second completion call is made, on the conversation extended by the
error-flagged tool message). -/
theorem dispatch_unknownTool_recoverable
    (invoke : Nat → String → String → Except String String) (reg : Registry)
    (tc : ToolCall) (client : Client) (conv : List Message) (round fuel : Nat)
    (comp : Completion)
    (hlookup : lookupReg reg tc.name = none)
    (hclient : client round conv = .ok comp)
    (hcalls : comp.tool_calls = [tc]) :
    dispatch invoke reg tc = ⟨tc.id, "Tool not found: " ++ tc.name, true⟩ ∧
    (dispatch invoke reg tc).error = true ∧
    (processConversation client invoke reg (fuel + 2) round conv).calls.take 2 =
      [conv, conv ++ [toolMessage (dispatch invoke reg tc)]] := by
  have hd : dispatch invoke reg tc = ⟨tc.id, "Tool not found: " ++ tc.name, true⟩ := by
    simp [dispatch, hlookup]
  refine ⟨hd, by rw [hd], ?_⟩
  have hne : comp.tool_calls.isEmpty = false := by simp [hcalls]
  have hbatch : roundMessages invoke reg comp = [toolMessage (dispatch invoke reg tc)] := by
    simp [roundMessages, hcalls]
  have hstep :
      processConversation client invoke reg (fuel + 1 + 1) round conv =
        ⟨(processConversation client invoke reg (fuel + 1) (round + 1)
            (conv ++ [toolMessage (dispatch invoke reg tc)])).conv,
         conv :: (processConversation client invoke reg (fuel + 1) (round + 1)
            (conv ++ [toolMessage (dispatch invoke reg tc)])).calls,
         (processConversation client invoke reg (fuel + 1) (round + 1)
            (conv ++ [toolMessage (dispatch invoke reg tc)])).outcome⟩ := by
    simp [processConversation, hclient, hne, hbatch]
  have hhead := processConversation_calls_head client invoke reg fuel (round + 1)
    (conv ++ [toolMessage (dispatch invoke reg tc)])
  rw [hstep]
  cases hl : (processConversation client invoke reg (fuel + 1) (round + 1)
      (conv ++ [toolMessage (dispatch invoke reg tc)])).calls with
  | nil => rw [hl] at hhead; simp at hhead
  | cons c0 rest =>
    rw [hl] at hhead
    simp at hhead
    simp [hhead]

theorem dispatch_unknownTool_recoverable_witness :
    dispatch c1WitInvoke [] ⟨"call9", "missing_tool", ""⟩ =
      ⟨"call9", "Tool not found: missing_tool", true⟩ ∧
    (dispatch c1WitInvoke [] ⟨"call9", "missing_tool", ""⟩).error = true ∧
    (processConversation
        (fun i _ => if i == 0 then .ok ⟨none, [⟨"call9", "missing_tool", ""⟩]⟩
          else .ok ⟨some "done", []⟩)
        c1WitInvoke [] (1 + 2) 0 [userMessage "go"]).calls.take 2 =
      [[userMessage "go"],
       [userMessage "go", toolMessage (dispatch c1WitInvoke [] ⟨"call9", "missing_tool", ""⟩)]] := by
  exact dispatch_unknownTool_recoverable c1WitInvoke [] ⟨"call9", "missing_tool", ""⟩
    (fun i _ => if i == 0 then .ok ⟨none, [⟨"call9", "missing_tool", ""⟩]⟩
      else .ok ⟨some "done", []⟩)
    [userMessage "go"] 0 1 ⟨none, [⟨"call9", "missing_tool", ""⟩]⟩ rfl rfl rfl

/-- C8: the conversation handed to the first completion call is the
system message prepended to the supplied conversation exactly when the
caller requests system-prompt injection or supplies no prior
conversation; otherwise the supplied conversation reaches the first
completion call unmodified. -/
theorem systemPromptInjection (client : Client)
    (invoke : Nat → String → String → Except String String)
    (adv : List (Nat × List String)) (messages : Option (List Message))
    (flag : Bool) (fuel : Nat) (hfuel : 0 < fuel) :
    (chatCompletionTrace client invoke adv messages flag fuel).head? =
      some (effectiveMessages (advertisedNames adv) messages flag) ∧
    (flag = true ∨ messages = none →
      effectiveMessages (advertisedNames adv) messages flag =
        systemPromptMessage (advertisedNames adv) :: messages.getD []) ∧
    (flag = false ∧ messages ≠ none →
      effectiveMessages (advertisedNames adv) messages flag = messages.getD []) := by
  obtain ⟨f, rfl⟩ : ∃ f, fuel = f + 1 := by
    cases fuel with
    | zero => omega
    | succ f => exact ⟨f, rfl⟩
  refine ⟨?_, ?_, ?_⟩
  · exact processConversation_calls_head client invoke (buildRegistry adv) f 0
      (effectiveMessages (advertisedNames adv) messages flag)
  · rintro (rfl | rfl)
    · cases messages <;> simp [effectiveMessages]
    · simp [effectiveMessages]
  · rintro ⟨rfl, hm⟩
    cases messages with
    | none => exact absurd rfl hm
    | some l => simp [effectiveMessages]

theorem systemPromptInjection_witness :
    (chatCompletionTrace c1WitClient c1WitInvoke [(0, ["read_file"])]
        (some [userMessage "hi"]) true 4).head? =
      some (effectiveMessages (advertisedNames [(0, ["read_file"])])
        (some [userMessage "hi"]) true) ∧
    effectiveMessages (advertisedNames [(0, ["read_file"])]) (some [userMessage "hi"]) true =
      systemPromptMessage (advertisedNames [(0, ["read_file"])]) :: [userMessage "hi"] := by
  have h := systemPromptInjection c1WitClient c1WitInvoke [(0, ["read_file"])]
    (some [userMessage "hi"]) true 4 (by decide)
  exact ⟨h.1, h.2.1 (Or.inl rfl)⟩

end McpViaLitellm
